import Mathlib

/-!
Verification of the Game of Life core of `zoeschmitt/game-of-life`
(`src/main.go`): the cell grid, the toroidal neighbor count
(`liveNeighbors`), the per-cell update (`checkState`), the main loop's
per-tick scan, and grid initialization (`makeCells`).  Rendering and
windowing (GLFW/OpenGL) are out of scope; the `drawable` handle on each
cell is omitted as pure presentation state.  Go's fallible indexing is
modelled with `Option`: `none` stands for a bounds-check panic.
-/

namespace GameOfLife

/-- A cell of the grid: `alive`/`aliveNext` as in the Go `cell` struct,
`x`/`y` its own board coordinates (Go `int`, hence `Int`). -/
structure Cell where
  alive : Bool
  aliveNext : Bool
  x : Int
  y : Int
deriving DecidableEq, Repr

/-- The `[][]*cell` grid. -/
abbrev Grid := List (List Cell)

/-- The `rows` constant of `main.go`. -/
def rows : Nat := 100

/-- The `columns` constant of `main.go`. -/
def columns : Nat := 100

/-- `cells[x][y]`, `none` when out of bounds (a Go panic). -/
def getCell? (g : Grid) (x y : Nat) : Option Cell := do
  let row ← g[x]?
  row[y]?

/-- Writing `cells[x][y] = c` (mutation through the cell pointer). -/
def setCell (g : Grid) (x y : Nat) (c : Cell) : Grid :=
  match g[x]? with
  | some row => g.set x (row.set y c)
  | none => g

/-- The wraparound of `add` inside `liveNeighbors`:
`if i == n { i = 0 } else if i == -1 { i = n - 1 }`. -/
def wrap (i : Int) (n : Nat) : Int :=
  if i = (n : Int) then 0 else if i = -1 then (n : Int) - 1 else i

/-- One `add(x, y)` probe of `liveNeighbors`: wrap `x` by `len(cells)`,
wrap `y` by `len(cells[x])`, read `cells[x][y].alive`.  `none` models the
panic when an index is still out of range after wrapping. -/
def probe (cells : Grid) (x y : Int) : Option Bool := do
  let x := wrap x cells.length
  let row ← if 0 ≤ x then cells[x.toNat]? else none
  let y := wrap y row.length
  let c ← if 0 ≤ y then row[y.toNat]? else none
  pure c.alive

/-- `liveNeighbors`: the 8 probes in source order, summing the live ones. -/
def liveNeighbors (c : Cell) (cells : Grid) : Option Nat := do
  let b1 ← probe cells (c.x - 1) c.y       -- to the left
  let b2 ← probe cells (c.x + 1) c.y       -- to the right
  let b3 ← probe cells c.x (c.y + 1)       -- up
  let b4 ← probe cells c.x (c.y - 1)       -- down
  let b5 ← probe cells (c.x - 1) (c.y + 1) -- top-left
  let b6 ← probe cells (c.x + 1) (c.y + 1) -- top-right
  let b7 ← probe cells (c.x - 1) (c.y - 1) -- bottom-left
  let b8 ← probe cells (c.x + 1) (c.y - 1) -- bottom-right
  pure (b1.toNat + b2.toNat + b3.toNat + b4.toNat +
        b5.toNat + b6.toNat + b7.toNat + b8.toNat)

/-- The first two lines of `checkState`:
`c.alive = c.aliveNext; c.aliveNext = c.alive`. -/
def commitCell (c : Cell) : Cell :=
  let c := { c with alive := c.aliveNext }
  { c with aliveNext := c.alive }

/-- The rule chain of `checkState` after `liveCount` is known. -/
def applyRules (c : Cell) (liveCount : Nat) : Cell :=
  if c.alive then
    -- 1. underpopulation
    let c := if liveCount < 2 then { c with aliveNext := false } else c
    -- 2. survival
    let c := if liveCount = 2 ∨ liveCount = 3 then { c with aliveNext := true } else c
    -- 3. overpopulation
    if liveCount > 3 then { c with aliveNext := false } else c
  else
    -- 4. reproduction
    if liveCount = 3 then { c with aliveNext := true } else c

/-- `cells[x][y].checkState(cells)`: the commit-then-evaluate step on one
cell, mutating the grid in place through the cell pointer.  The committed
cell is written back before `liveNeighbors` runs, as the Go pointer
mutation makes it visible to the scan. -/
def checkStateAt (cells : Grid) (x y : Nat) : Option Grid := do
  let c ← getCell? cells x y
  let c := commitCell c
  let cells := setCell cells x y c
  let liveCount ← liveNeighbors c cells
  pure (setCell cells x y (applyRules c liveCount))

/-- Run `checkState` on the listed positions in order: the body of
`for x := range cells { for _, c := range cells[x] }`. -/
def runPass (cells : Grid) : List (Nat × Nat) → Option Grid
  | [] => some cells
  | p :: ps => do
    let cells ← checkStateAt cells p.1 p.2
    runPass cells ps

/-- The row-major order of the nested loops in `main`, with the inner
bound `len(cells[x])` read from the grid.  `checkState` never changes a
row's length, so reading the bounds up front matches the Go loops. -/
def passOrder (cells : Grid) : List (Nat × Nat) :=
  (List.range cells.length).flatMap fun x =>
    (List.range ((cells[x]?.map List.length).getD 0)).map fun y => (x, y)

/-- One tick of the main loop: the full `checkState` scan. -/
def tick (cells : Grid) : Option Grid := runPass cells (passOrder cells)

/-- `n` ticks of the main loop. -/
def tickN : Nat → Grid → Option Grid
  | 0, cells => some cells
  | n + 1, cells => do
    let cells ← tick cells
    tickN n cells

/-- `makeCells`, with the external `math/rand` library abstracted: after
`rand.Seed(seed)`, the outcome of the k-th comparison
`rand.Float64() < threshold` is a fixed Boolean `stream seed k` (Go's
generator is a deterministic function of the seed; the fixed threshold
0.15 is part of that function).  Cells are created row-major, one draw
per cell, `aliveNext` initialized equal to `alive`, coordinates stored. -/
def makeCells (stream : Int → Nat → Bool) (seed : Int) : Grid :=
  (List.range rows).map fun x =>
    (List.range columns).map fun y =>
      let a := stream seed (x * columns + y)
      { alive := a, aliveNext := a, x := (x : Int), y := (y : Int) }

/-- An initial grid with a chosen alive pattern: the shape `makeCells`
produces (row-major, `aliveNext = alive`, coordinates stored), with the
random draws replaced by `f` and the dimensions by `R × C`. -/
def gridOfAlive (R C : Nat) (f : Nat → Nat → Bool) : Grid :=
  (List.range R).map fun x =>
    (List.range C).map fun y =>
      { alive := f x y, aliveNext := f x y, x := (x : Int), y := (y : Int) }

/-! ### Observation and well-formedness -/

/-- The `alive` value stored at `(x, y)` (`false` off the grid). -/
def aliveAt (g : Grid) (x y : Nat) : Bool :=
  ((getCell? g x y).map Cell.alive).getD false

/-- The `aliveNext` value stored at `(x, y)` (`false` off the grid). -/
def nextAt (g : Grid) (x y : Nat) : Bool :=
  ((getCell? g x y).map Cell.aliveNext).getD false

/-- The grid is an `R × C` rectangle and every cell records its own
coordinates — true of every grid `makeCells` builds and every grid the
scan produces from one. -/
def wfb (g : Grid) (R C : Nat) : Bool :=
  (g.length == R) &&
  (List.range R).all fun x =>
    match g[x]? with
    | none => false
    | some row =>
      (row.length == C) && (List.range C).all fun y =>
        match row[y]? with
        | none => false
        | some c => c.x == (x : Int) && c.y == (y : Int)

@[reducible] def WF (g : Grid) (R C : Nat) : Prop := wfb g R C = true

/-! ### The specification's model

Definitions in this block are written from the spec's words (§4.1), to be
compared with the code: toroidal neighbor counting by reduction modulo
`rows`/`columns`, a `computeNextStates` pass over one snapshot, and a
separate `commit` pass. -/

/-- The spec's transition table as a function of the current state and
the live-neighbor count. -/
def lifeRule (a : Bool) (n : Nat) : Bool :=
  if a then (n == 2 || n == 3) else (n == 3)

/-- Spec-side model: the `alive` value at toroidal position
`(x mod rows, y mod columns)`, any integers `x`, `y`. -/
def aliveAtMod (g : Grid) (x y : Int) : Bool :=
  match g[(x % (g.length : Int)).toNat]? with
  | none => false
  | some row =>
    match row[(y % (row.length : Int)).toNat]? with
    | none => false
    | some c => c.alive

/-- The offsets of the 8 neighbors: left, right, up, down, and the four
diagonals, in the order `liveNeighbors` probes them. -/
def neighborOffsets : List (Int × Int) :=
  [(-1, 0), (1, 0), (0, 1), (0, -1), (-1, 1), (1, 1), (-1, -1), (1, -1)]

/-- Spec-side model: `countLiveNeighbors(grid, x, y)` — the number
of live cells among the 8 toroidal neighbors of `(x, y)`, indices wrapped
modulo the dimensions. -/
def specCount (g : Grid) (x y : Int) : Nat :=
  (neighborOffsets.map fun d => (aliveAtMod g (x + d.1) (y + d.2)).toNat).sum

/-- Spec-side model: `computeNextStates` — every cell's `aliveNext`
from its and its neighbors' current `alive` values, all read from the one
pre-pass snapshot `g`. -/
def computeNextStatesSpec (g : Grid) : Grid :=
  g.map fun row => row.map fun c =>
    { c with aliveNext := lifeRule c.alive (specCount g c.x c.y) }

/-- Spec-side model: `commit` — copy `aliveNext` into `alive` for
every cell, after the whole compute pass. -/
def commitSpec (g : Grid) : Grid :=
  g.map fun row => row.map fun c => { c with alive := c.aliveNext }

/-- Spec-side model: one tick as the two strictly ordered phases. -/
def specTick (g : Grid) : Grid := commitSpec (computeNextStatesSpec g)

/-- The positions the per-tick scan visits on an `R × C` grid, row-major. -/
def rowMajor (R C : Nat) : List (Nat × Nat) :=
  (List.range R).flatMap fun x => (List.range C).map fun y => (x, y)

/-- The wrapped positions `liveNeighbors` reads for a cell at `(x, y)`,
in probe order. -/
def neighborPositions (R C : Nat) (x y : Int) : List (Int × Int) :=
  neighborOffsets.map fun d => (wrap (x + d.1) R, wrap (y + d.2) C)

/-! ### Concrete boards -/

/-- A blinker: three live cells in a row on an otherwise dead 5×5 board,
as freshly initialized (`aliveNext = alive`). -/
def blink5 : Grid :=
  gridOfAlive 5 5 fun x y => x == 2 && (y == 1 || y == 2 || y == 3)

/-- Whether `r` is one of the two block rows (or columns) `i`, `i + 1`. -/
def hitB (i r : Nat) : Bool := r == i || r == i + 1

/-- A 2×2 block of live cells with top-left corner `(i, j)` on an
otherwise dead `R × C` board, freshly initialized (`aliveNext = alive`). -/
def blockGrid (R C i j : Nat) : Grid :=
  gridOfAlive R C fun x y => hitB i x && hitB j y

/-- How many of the three toroidal neighbor rows of `x` (the wrapped
predecessor, `x` itself, the wrapped successor) are block rows. -/
def hits3 (R i x : Nat) : Nat :=
  (hitB i (if x = 0 then R - 1 else x - 1)).toNat + (hitB i x).toNat +
    (hitB i (if x = R - 1 then 0 else x + 1)).toNat

/-- The state of the grid after the scan has processed the positions in
`done`, started from `g0` with `aliveNext = alive` everywhere: all `alive`
fields still hold the pre-tick snapshot (each commit so far was a no-op),
processed cells hold the spec's next state in `aliveNext`, unprocessed
cells still hold their initial `aliveNext = alive`. -/
def Synced (g0 g : Grid) (R C : Nat) (done : List (Nat × Nat)) : Prop :=
  WF g R C ∧ ∀ x y : Nat, x < R → y < C →
    aliveAt g x y = aliveAt g0 x y ∧
    nextAt g x y = if (x, y) ∈ done then
      lifeRule (aliveAt g0 x y) (specCount g0 (x : Int) (y : Int))
    else aliveAt g0 x y

/-- A 4×4 board whose only live cell sits at the far corner `(3, 3)`. -/
def corner4 : Grid := gridOfAlive 4 4 fun x y => x == 3 && y == 3

/-- A sample deterministic draw stream standing in for seeded `math/rand`. -/
def exampleStream : Int → Nat → Bool := fun s k => (s + (k : Int)) % 3 == 0

/-- The live cell `(2, 2)` as `blink5` stores it. -/
def cell22 : Cell := { alive := true, aliveNext := true, x := 2, y := 2 }


/-! ### Cell-level lemmas -/

theorem commitCell_eq (c : Cell) :
    commitCell c = { alive := c.aliveNext, aliveNext := c.aliveNext, x := c.x, y := c.y } := rfl

theorem applyRules_alive (c : Cell) (n : Nat) : (applyRules c n).alive = c.alive := by
  unfold applyRules
  split <;> split <;> first | rfl | (split <;> first | rfl | (split <;> rfl))

theorem applyRules_x (c : Cell) (n : Nat) : (applyRules c n).x = c.x := by
  unfold applyRules
  split <;> split <;> first | rfl | (split <;> first | rfl | (split <;> rfl))

theorem applyRules_y (c : Cell) (n : Nat) : (applyRules c n).y = c.y := by
  unfold applyRules
  split <;> split <;> first | rfl | (split <;> first | rfl | (split <;> rfl))

/-- On a committed cell (`aliveNext = alive`) the rule chain of
`checkState` computes exactly the spec's transition table. -/
theorem applyRules_aliveNext (c : Cell) (n : Nat) (h : c.aliveNext = c.alive) :
    (applyRules c n).aliveNext = lifeRule c.alive n := by
  cases hA : c.alive <;>
    simp only [applyRules, lifeRule, hA, if_true, if_false, Bool.false_eq_true] <;>
    split_ifs <;> simp_all <;> omega

/-! ### The wraparound arithmetic -/

/-- For a probe one step off an in-range index, the code's wraparound
lands in range and agrees with reduction modulo the dimension. -/
theorem wrap_spec (i : Int) (n : Nat) (hn : 1 ≤ n) (hlo : -1 ≤ i) (hhi : i ≤ n) :
    0 ≤ wrap i n ∧ wrap i n < n ∧ wrap i n = i % (n : Int) := by
  have hn0 : (0 : Int) < (n : Int) := by exact_mod_cast hn
  unfold wrap
  split_ifs with h1 h2
  · subst h1
    exact ⟨le_refl 0, hn0, by rw [Int.emod_self]⟩
  · subst h2
    refine ⟨by omega, by omega, ?_⟩
    have h3 : (-1 : Int) % (n : Int) = ((n : Int) - 1) % (n : Int) := by
      conv_lhs => rw [show (-1 : Int) = ((n : Int) - 1) - (n : Int) by ring]
      rw [Int.emod_sub_cancel]
    rw [h3, Int.emod_eq_of_lt (by omega) (by omega)]
  · have hi0 : 0 ≤ i := by omega
    have hin : i < n := by omega
    exact ⟨hi0, hin, by rw [Int.emod_eq_of_lt hi0 hin]⟩

/-! ### Well-formedness -/

theorem WF.length {g : Grid} {R C : Nat} (h : WF g R C) : g.length = R := by
  unfold WF wfb at h
  simp only [Bool.and_eq_true, beq_iff_eq] at h
  exact h.1

theorem WF.row {g : Grid} {R C : Nat} (h : WF g R C) {x : Nat} (hx : x < R) :
    ∃ row, g[x]? = some row ∧ row.length = C := by
  unfold WF wfb at h
  simp only [Bool.and_eq_true, beq_iff_eq, List.all_eq_true, List.mem_range] at h
  have hx2 := h.2 x hx
  revert hx2
  match hrow : g[x]? with
  | none => intro hx2; exact absurd hx2 (by simp)
  | some row =>
    intro hx2
    simp only [Bool.and_eq_true, beq_iff_eq] at hx2
    exact ⟨row, rfl, hx2.1⟩

theorem WF.cell {g : Grid} {R C : Nat} (h : WF g R C) {x y : Nat}
    (hx : x < R) (hy : y < C) :
    ∃ c, getCell? g x y = some c ∧ c.x = (x : Int) ∧ c.y = (y : Int) := by
  unfold WF wfb at h
  simp only [Bool.and_eq_true, beq_iff_eq, List.all_eq_true, List.mem_range] at h
  have hx2 := h.2 x hx
  revert hx2
  match hrow : g[x]? with
  | none => intro hx2; exact absurd hx2 (by simp)
  | some row =>
    intro hx2
    simp only [Bool.and_eq_true, beq_iff_eq, List.all_eq_true, List.mem_range] at hx2
    have hy2 := hx2.2 y hy
    revert hy2
    match hc : row[y]? with
    | none => intro hy2; exact absurd hy2 (by simp)
    | some c =>
      intro hy2
      simp only [Bool.and_eq_true, beq_iff_eq] at hy2
      exact ⟨c, by unfold getCell?; rw [hrow]; exact hc, hy2.1, hy2.2⟩


/-! ### Grid update lemmas -/

theorem setCell_length (g : Grid) (x y : Nat) (c : Cell) :
    (setCell g x y c).length = g.length := by
  unfold setCell
  split <;> simp

theorem getCell?_setCell_self {g : Grid} {x y : Nat} {c0 : Cell}
    (h : getCell? g x y = some c0) (c : Cell) :
    getCell? (setCell g x y c) x y = some c := by
  unfold getCell? at h ⊢
  cases hrow : g[x]? with
  | none => rw [hrow] at h; simp at h
  | some row =>
    rw [hrow] at h
    simp only [Option.bind_eq_bind, Option.some_bind] at h
    have hx : x < g.length := (List.getElem?_eq_some_iff.mp hrow).1
    have hy : y < row.length := (List.getElem?_eq_some_iff.mp h).1
    unfold setCell
    rw [hrow]
    simp [List.getElem?_set_self, hx, hy]

theorem getCell?_setCell_ne {x y x2 y2 : Nat} (g : Grid) (c : Cell)
    (hne : x ≠ x2 ∨ y ≠ y2) :
    getCell? (setCell g x y c) x2 y2 = getCell? g x2 y2 := by
  unfold getCell? setCell
  cases hrow : g[x]? with
  | none => rfl
  | some row =>
    rcases eq_or_ne x x2 with heq | hx
    · subst heq
      have hy : y ≠ y2 := by tauto
      have hx : x < g.length := (List.getElem?_eq_some_iff.mp hrow).1
      simp [List.getElem?_set_self, hx, hrow, List.getElem?_set_ne hy]
    · simp [List.getElem?_set_ne hx]

theorem aliveAt_eq {g : Grid} {x y : Nat} {c : Cell} (h : getCell? g x y = some c) :
    aliveAt g x y = c.alive := by
  unfold aliveAt
  rw [h]
  rfl

theorem nextAt_eq {g : Grid} {x y : Nat} {c : Cell} (h : getCell? g x y = some c) :
    nextAt g x y = c.aliveNext := by
  unfold nextAt
  rw [h]
  rfl

theorem aliveAt_setCell_ne {x y x2 y2 : Nat} (g : Grid) (c : Cell)
    (hne : x ≠ x2 ∨ y ≠ y2) :
    aliveAt (setCell g x y c) x2 y2 = aliveAt g x2 y2 := by
  unfold aliveAt
  rw [getCell?_setCell_ne g c hne]

theorem nextAt_setCell_ne {x y x2 y2 : Nat} (g : Grid) (c : Cell)
    (hne : x ≠ x2 ∨ y ≠ y2) :
    nextAt (setCell g x y c) x2 y2 = nextAt g x2 y2 := by
  unfold nextAt
  rw [getCell?_setCell_ne g c hne]

/-- The rectangular shape in elementwise form. -/
theorem wf_iff {g : Grid} {R C : Nat} :
    WF g R C ↔
      g.length = R ∧
      (∀ x, x < R → ∃ row, g[x]? = some row ∧ row.length = C) ∧
      (∀ x y, x < R → y < C →
        ∃ c, getCell? g x y = some c ∧ c.x = (x : Int) ∧ c.y = (y : Int)) := by
  constructor
  · intro h
    exact ⟨h.length, fun x hx => h.row hx, fun x y hx hy => h.cell hx hy⟩
  · rintro ⟨h1, h2, h3⟩
    unfold WF wfb
    simp only [Bool.and_eq_true, beq_iff_eq, List.all_eq_true, List.mem_range]
    refine ⟨h1, fun x hx => ?_⟩
    obtain ⟨row, hrow, hlen⟩ := h2 x hx
    rw [hrow]
    simp only [Bool.and_eq_true, beq_iff_eq, List.all_eq_true, List.mem_range]
    refine ⟨hlen, fun y hy => ?_⟩
    obtain ⟨c, hc, hcx, hcy⟩ := h3 x y hx hy
    unfold getCell? at hc
    rw [hrow] at hc
    simp only [Option.bind_eq_bind, Option.some_bind] at hc
    rw [hc]
    simp [hcx, hcy]

theorem WF.setCell {g : Grid} {R C : Nat} (h : WF g R C) {x y : Nat} {c : Cell}
    (hcx : c.x = (x : Int)) (hcy : c.y = (y : Int)) :
    WF (GameOfLife.setCell g x y c) R C := by
  rw [wf_iff] at h ⊢
  obtain ⟨h1, h2, h3⟩ := h
  refine ⟨by rw [setCell_length, h1], fun x2 hx2 => ?_, fun x2 y2 hx2 hy2 => ?_⟩
  · obtain ⟨row, hrow, hlen⟩ := h2 x2 hx2
    unfold GameOfLife.setCell
    cases hrx : g[x]? with
    | none => exact ⟨row, hrow, hlen⟩
    | some rowx =>
      rcases eq_or_ne x x2 with heq | hne
      · subst heq
        have hxlen : x < g.length := (List.getElem?_eq_some_iff.mp hrx).1
        rw [hrow] at hrx
        obtain rfl : rowx = row := by injection hrx with h4; exact h4.symm
        exact ⟨rowx.set y c, by simp [List.getElem?_set_self, hxlen], by simp [hlen]⟩
      · exact ⟨row, by rw [List.getElem?_set_ne hne, hrow], hlen⟩
  · rcases eq_or_ne x x2 with heq | hne
    · rcases eq_or_ne y y2 with heq2 | hne2
      · subst heq; subst heq2
        obtain ⟨c0, hc0, _, _⟩ := h3 x y hx2 hy2
        exact ⟨c, getCell?_setCell_self hc0 c, hcx, hcy⟩
      · obtain ⟨c0, hc0, hx0, hy0⟩ := h3 x2 y2 hx2 hy2
        subst heq
        exact ⟨c0, by rw [getCell?_setCell_ne g c (Or.inr hne2)]; exact hc0, hx0, hy0⟩
    · obtain ⟨c0, hc0, hx0, hy0⟩ := h3 x2 y2 hx2 hy2
      exact ⟨c0, by rw [getCell?_setCell_ne g c (Or.inl hne)]; exact hc0, hx0, hy0⟩

/-! ### The toroidal read refines the spec -/

/-- A single `add` probe, started one step off an in-range index, reads the
`alive` value of the wrapped position and cannot fail. -/
theorem probe_eq {g : Grid} {R C : Nat} (h : WF g R C) {x y : Int}
    (hx1 : -1 ≤ x) (hx2 : x ≤ R) (hy1 : -1 ≤ y) (hy2 : y ≤ C)
    (hR : 1 ≤ R) (hC : 1 ≤ C) :
    probe g x y = some (aliveAt g (x % (R : Int)).toNat (y % (C : Int)).toNat) := by
  obtain ⟨hx0, hxR, hxmod⟩ := wrap_spec x R hR hx1 hx2
  obtain ⟨hy0, hyC, hymod⟩ := wrap_spec y C hC hy1 hy2
  have hxlt : (wrap x R).toNat < R := by omega
  have hylt : (wrap y C).toNat < C := by omega
  obtain ⟨c, hc, _, _⟩ := h.cell hxlt hylt
  unfold getCell? at hc
  cases hrow : g[(wrap x R).toNat]? with
  | none => rw [hrow] at hc; simp at hc
  | some row =>
    rw [hrow] at hc
    simp only [Option.bind_eq_bind, Option.some_bind] at hc
    obtain ⟨row2, hrow2, hlen2⟩ := h.row hxlt
    rw [hrow] at hrow2
    obtain rfl : row2 = row := by injection hrow2 with h4; exact h4.symm
    unfold probe
    rw [h.length]
    simp only [if_pos hx0, Option.bind_eq_bind]
    rw [hrow]
    simp only [Option.some_bind, hlen2]
    rw [if_pos hy0, hc]
    simp only [Option.some_bind]
    have h5 : aliveAt g (x % (R : Int)).toNat (y % (C : Int)).toNat = c.alive := by
      rw [← hxmod, ← hymod]
      exact aliveAt_eq (by unfold getCell?; rw [hrow]; simpa using hc)
    rw [h5]
    rfl

/-- The spec-side toroidal read lands on the in-range wrapped position. -/
theorem aliveAtMod_eq {g : Grid} {R C : Nat} (h : WF g R C)
    (hR : 1 ≤ R) (hC : 1 ≤ C) (x y : Int) :
    aliveAtMod g x y = aliveAt g (x % (R : Int)).toNat (y % (C : Int)).toNat := by
  have hR0 : (0 : Int) < (R : Int) := by exact_mod_cast hR
  have hC0 : (0 : Int) < (C : Int) := by exact_mod_cast hC
  have hx0 : 0 ≤ x % (R : Int) := Int.emod_nonneg x (by omega)
  have hxR : x % (R : Int) < R := Int.emod_lt_of_pos x hR0
  have hy0 : 0 ≤ y % (C : Int) := Int.emod_nonneg y (by omega)
  have hyC : y % (C : Int) < C := Int.emod_lt_of_pos y hC0
  have hxlt : (x % (R : Int)).toNat < R := by omega
  have hylt : (y % (C : Int)).toNat < C := by omega
  obtain ⟨c, hc, _, _⟩ := h.cell hxlt hylt
  unfold getCell? at hc
  cases hrow : g[(x % (R : Int)).toNat]? with
  | none => rw [hrow] at hc; simp at hc
  | some row =>
    rw [hrow] at hc
    simp only [Option.bind_eq_bind, Option.some_bind] at hc
    obtain ⟨row2, hrow2, hlen2⟩ := h.row hxlt
    rw [hrow] at hrow2
    obtain rfl : row2 = row := by injection hrow2 with h4; exact h4.symm
    unfold aliveAtMod
    rw [h.length]
    simp only [hrow, hlen2, hc]
    exact (aliveAt_eq (by unfold getCell?; rw [hrow]; simpa using hc)).symm

/-- `liveNeighbors` succeeds on an in-range cell and returns exactly the
spec's toroidal 8-neighbor count. -/
theorem liveNeighbors_eq {g : Grid} {R C : Nat} (h : WF g R C) {c : Cell}
    {x y : Nat} (hx : x < R) (hy : y < C)
    (hcx : c.x = (x : Int)) (hcy : c.y = (y : Int)) :
    liveNeighbors c g = some (specCount g (x : Int) (y : Int)) := by
  have hR : 1 ≤ R := by omega
  have hC : 1 ≤ C := by omega
  have hxR : (x : Int) ≤ (R : Int) := by exact_mod_cast Nat.le_of_lt hx
  have hyC : (y : Int) ≤ (C : Int) := by exact_mod_cast Nat.le_of_lt hy
  have p1 := probe_eq h (x := (x : Int) - 1) (y := (y : Int))
    (by omega) (by omega) (by omega) (by omega) hR hC
  have p2 := probe_eq h (x := (x : Int) + 1) (y := (y : Int))
    (by omega) (by omega) (by omega) (by omega) hR hC
  have p3 := probe_eq h (x := (x : Int)) (y := (y : Int) + 1)
    (by omega) (by omega) (by omega) (by omega) hR hC
  have p4 := probe_eq h (x := (x : Int)) (y := (y : Int) - 1)
    (by omega) (by omega) (by omega) (by omega) hR hC
  have p5 := probe_eq h (x := (x : Int) - 1) (y := (y : Int) + 1)
    (by omega) (by omega) (by omega) (by omega) hR hC
  have p6 := probe_eq h (x := (x : Int) + 1) (y := (y : Int) + 1)
    (by omega) (by omega) (by omega) (by omega) hR hC
  have p7 := probe_eq h (x := (x : Int) - 1) (y := (y : Int) - 1)
    (by omega) (by omega) (by omega) (by omega) hR hC
  have p8 := probe_eq h (x := (x : Int) + 1) (y := (y : Int) - 1)
    (by omega) (by omega) (by omega) (by omega) hR hC
  unfold liveNeighbors
  rw [hcx, hcy]
  simp only [Option.bind_eq_bind, p1, p2, p3, p4, p5, p6, p7, p8, Option.some_bind]
  simp only [specCount, neighborOffsets, List.map_cons, List.map_nil,
    List.sum_cons, List.sum_nil, aliveAtMod_eq h hR hC]
  simp only [Int.sub_eq_add_neg, add_zero, Option.pure_def, Option.some.injEq]
  omega

theorem aliveAtMod_congr {g g2 : Grid} {R C : Nat} (h : WF g R C) (h2 : WF g2 R C)
    (hR : 1 ≤ R) (hC : 1 ≤ C)
    (ha : ∀ a b : Nat, a < R → b < C → aliveAt g a b = aliveAt g2 a b)
    (x y : Int) : aliveAtMod g x y = aliveAtMod g2 x y := by
  rw [aliveAtMod_eq h hR hC, aliveAtMod_eq h2 hR hC]
  have hR0 : (0 : Int) < (R : Int) := by exact_mod_cast hR
  have hC0 : (0 : Int) < (C : Int) := by exact_mod_cast hC
  apply ha
  · have := Int.emod_lt_of_pos x hR0
    have := Int.emod_nonneg x (show (R : Int) ≠ 0 by omega)
    omega
  · have := Int.emod_lt_of_pos y hC0
    have := Int.emod_nonneg y (show (C : Int) ≠ 0 by omega)
    omega

theorem specCount_congr {g g2 : Grid} {R C : Nat} (h : WF g R C) (h2 : WF g2 R C)
    (hR : 1 ≤ R) (hC : 1 ≤ C)
    (ha : ∀ a b : Nat, a < R → b < C → aliveAt g a b = aliveAt g2 a b)
    (x y : Int) : specCount g x y = specCount g2 x y := by
  simp only [specCount, aliveAtMod_congr h h2 hR hC ha]

/-! ### The scan invariant -/

theorem Synced.congr_done {g0 g : Grid} {R C : Nat} {d1 d2 : List (Nat × Nat)}
    (hd : ∀ p, p ∈ d1 ↔ p ∈ d2) (h : Synced g0 g R C d1) : Synced g0 g R C d2 := by
  refine ⟨h.1, fun x y hx hy => ⟨(h.2 x y hx hy).1, ?_⟩⟩
  rw [(h.2 x y hx hy).2]
  by_cases hm : (x, y) ∈ d1
  · rw [if_pos hm, if_pos ((hd _).mp hm)]
  · rw [if_neg hm, if_neg (fun hm2 => hm ((hd _).mpr hm2))]

theorem checkStateAt_synced {g0 g : Grid} {R C : Nat} {done : List (Nat × Nat)}
    (h0 : WF g0 R C) (hs : Synced g0 g R C done) {x y : Nat}
    (hx : x < R) (hy : y < C) (hnew : (x, y) ∉ done) :
    ∃ g2, checkStateAt g x y = some g2 ∧ Synced g0 g2 R C ((x, y) :: done) := by
  have hR : 1 ≤ R := by omega
  have hC : 1 ≤ C := by omega
  obtain ⟨hwf, hpt⟩ := hs
  obtain ⟨c, hc, hcx, hcy⟩ := hwf.cell hx hy
  obtain ⟨haxy, hnxy⟩ := hpt x y hx hy
  rw [if_neg hnew] at hnxy
  have hca : c.alive = aliveAt g0 x y := by rw [← haxy, aliveAt_eq hc]
  have hcn : c.aliveNext = aliveAt g0 x y := by rw [← hnxy, nextAt_eq hc]
  -- the committed cell and the once-updated grid
  have hc1a : (commitCell c).alive = aliveAt g0 x y := by rw [commitCell_eq]; exact hcn
  have hc1n : (commitCell c).aliveNext = aliveAt g0 x y := by rw [commitCell_eq]; exact hcn
  have hc1x : (commitCell c).x = (x : Int) := by rw [commitCell_eq]; exact hcx
  have hc1y : (commitCell c).y = (y : Int) := by rw [commitCell_eq]; exact hcy
  have hwf1 : WF (setCell g x y (commitCell c)) R C := hwf.setCell hc1x hc1y
  have ha1 : ∀ a b : Nat, a < R → b < C →
      aliveAt (setCell g x y (commitCell c)) a b = aliveAt g0 a b := by
    intro a b ha2 hb2
    by_cases hab : x = a ∧ y = b
    · obtain ⟨rfl, rfl⟩ := hab
      rw [aliveAt_eq (getCell?_setCell_self hc (commitCell c)), hc1a]
    · rw [aliveAt_setCell_ne g (commitCell c) (by tauto)]
      exact (hpt a b ha2 hb2).1
  -- the neighbor count over the committed grid is the spec count over g0
  have hcount : liveNeighbors (commitCell c) (setCell g x y (commitCell c)) =
      some (specCount g0 (x : Int) (y : Int)) := by
    rw [liveNeighbors_eq hwf1 hx hy hc1x hc1y]
    rw [specCount_congr hwf1 h0 hR hC ha1]
  -- the updated cell
  have hc2a : (applyRules (commitCell c) (specCount g0 (x : Int) (y : Int))).alive
      = aliveAt g0 x y := by rw [applyRules_alive]; exact hc1a
  have hc2n : (applyRules (commitCell c) (specCount g0 (x : Int) (y : Int))).aliveNext
      = lifeRule (aliveAt g0 x y) (specCount g0 (x : Int) (y : Int)) := by
    rw [applyRules_aliveNext _ _ (by rw [hc1a, hc1n]), hc1a]
  have hc2x : (applyRules (commitCell c) (specCount g0 (x : Int) (y : Int))).x
      = (x : Int) := by rw [applyRules_x]; exact hc1x
  have hc2y : (applyRules (commitCell c) (specCount g0 (x : Int) (y : Int))).y
      = (y : Int) := by rw [applyRules_y]; exact hc1y
  have hc1get : getCell? (setCell g x y (commitCell c)) x y = some (commitCell c) :=
    getCell?_setCell_self hc (commitCell c)
  refine ⟨setCell (setCell g x y (commitCell c)) x y
    (applyRules (commitCell c) (specCount g0 (x : Int) (y : Int))), ?_, ?_⟩
  · unfold checkStateAt
    rw [hc]
    simp only [Option.bind_eq_bind, Option.some_bind, hcount]
    rfl
  · refine ⟨hwf1.setCell hc2x hc2y, fun a b ha2 hb2 => ?_⟩
    by_cases hab : x = a ∧ y = b
    · obtain ⟨rfl, rfl⟩ := hab
      constructor
      · rw [aliveAt_eq (getCell?_setCell_self hc1get _), hc2a]
      · rw [nextAt_eq (getCell?_setCell_self hc1get _), hc2n,
          if_pos (List.mem_cons_self _ _)]
    · have hne : x ≠ a ∨ y ≠ b := by tauto
      constructor
      · rw [aliveAt_setCell_ne _ _ hne]
        exact ha1 a b ha2 hb2
      · rw [nextAt_setCell_ne _ _ hne, nextAt_setCell_ne _ _ hne,
          (hpt a b ha2 hb2).2]
        have hmem : ((a, b) ∈ (x, y) :: done) ↔ ((a, b) ∈ done) := by
          simp only [List.mem_cons, Prod.mk.injEq]
          constructor
          · rintro (⟨rfl, rfl⟩ | hm)
            · exact absurd ⟨rfl, rfl⟩ hab
            · exact hm
          · exact Or.inr
        by_cases hm : (a, b) ∈ done
        · rw [if_pos hm, if_pos (hmem.mpr hm)]
        · rw [if_neg hm, if_neg (fun h2 => hm (hmem.mp h2))]
theorem runPass_synced {g0 : Grid} {R C : Nat} (h0 : WF g0 R C)
    (ps : List (Nat × Nat)) :
    ∀ (g : Grid) (done : List (Nat × Nat)), Synced g0 g R C done →
      (∀ p ∈ ps, p.1 < R ∧ p.2 < C) → ps.Nodup → (∀ p ∈ ps, p ∉ done) →
      ∃ g2, runPass g ps = some g2 ∧ Synced g0 g2 R C (ps ++ done) := by
  induction ps with
  | nil =>
    intro g done hs _ _ _
    exact ⟨g, rfl, hs⟩
  | cons p ps ih =>
    obtain ⟨px, py⟩ := p
    intro g done hs hin hnd hdis
    obtain ⟨hx, hy⟩ := hin (px, py) (List.mem_cons_self _ _)
    obtain ⟨g1, hg1, hs1⟩ :=
      checkStateAt_synced h0 hs hx hy (hdis (px, py) (List.mem_cons_self _ _))
    rw [List.nodup_cons] at hnd
    obtain ⟨g2, hg2, hs2⟩ := ih g1 ((px, py) :: done) hs1
      (fun q hq => hin q (List.mem_cons_of_mem _ hq)) hnd.2
      (fun q hq => by
        simp only [List.mem_cons, not_or]
        exact ⟨fun he => hnd.1 (he ▸ hq), hdis q (List.mem_cons_of_mem _ hq)⟩)
    refine ⟨g2, ?_, ?_⟩
    · unfold runPass
      rw [hg1]
      simpa using hg2
    · refine hs2.congr_done fun q => ?_
      simp only [List.mem_append, List.mem_cons]
      tauto

/-- Under well-formedness the nested loop bounds of `main` are exactly the
row-major enumeration of the `R × C` rectangle. -/
theorem passOrder_eq {g : Grid} {R C : Nat} (h : WF g R C) :
    passOrder g = rowMajor R C := by
  unfold passOrder rowMajor
  rw [h.length]
  apply List.flatMap_congr
  intro x hx
  obtain ⟨row, hrow, hlen⟩ := h.row (List.mem_range.mp hx)
  rw [hrow]
  simp [hlen]

theorem rowMajor_mem {R C : Nat} {p : Nat × Nat} :
    p ∈ rowMajor R C ↔ p.1 < R ∧ p.2 < C := by
  obtain ⟨a, b⟩ := p
  simp only [rowMajor, List.mem_flatMap, List.mem_map, List.mem_range, Prod.mk.injEq]
  constructor
  · rintro ⟨x, hx, y, hy, rfl, rfl⟩
    exact ⟨hx, hy⟩
  · rintro ⟨ha, hb⟩
    exact ⟨a, ha, b, hb, rfl, rfl⟩

theorem rowMajor_nodup (R C : Nat) : (rowMajor R C).Nodup := by
  unfold rowMajor
  rw [List.nodup_flatMap]
  constructor
  · intro x _
    exact (List.nodup_range C).map fun y1 y2 h => by
      injection h with h1 h2
  · refine (List.nodup_range R).imp ?_
    intro x1 x2 hne q hq1 hq2
    simp only [List.mem_map, List.mem_range] at hq1 hq2
    obtain ⟨y1, _, rfl⟩ := hq1
    obtain ⟨y2, _, he⟩ := hq2
    injection he with h1 h2
    exact hne h1.symm

/-- A full scan of a well-formed grid whose `aliveNext` equals `alive`
everywhere: every commit is a no-op, every cell's next state is computed
from the one pre-tick snapshot. -/
theorem tick_synced {g0 : Grid} {R C : Nat} (h0 : WF g0 R C)
    (hinit : ∀ x y : Nat, x < R → y < C → nextAt g0 x y = aliveAt g0 x y) :
    ∃ g2, tick g0 = some g2 ∧ WF g2 R C ∧
      ∀ x y : Nat, x < R → y < C →
        aliveAt g2 x y = aliveAt g0 x y ∧
        nextAt g2 x y = lifeRule (aliveAt g0 x y) (specCount g0 (x : Int) (y : Int)) := by
  have hs0 : Synced g0 g0 R C [] :=
    ⟨h0, fun x y hx hy => ⟨rfl, by simpa using hinit x y hx hy⟩⟩
  obtain ⟨g2, hg2, hs2⟩ := runPass_synced h0 (rowMajor R C) g0 [] hs0
    (fun p hp => rowMajor_mem.mp hp) (rowMajor_nodup R C) (by simp)
  refine ⟨g2, ?_, hs2.1, fun x y hx hy => ?_⟩
  · rw [tick, passOrder_eq h0]
    exact hg2
  · obtain ⟨h5, h6⟩ := hs2.2 x y hx hy
    rw [if_pos (by simpa using rowMajor_mem.mpr ⟨hx, hy⟩)] at h6
    exact ⟨h5, h6⟩

/-! ### Initial grids -/

theorem getCell?_gridOfAlive {R C : Nat} (f : Nat → Nat → Bool) {x y : Nat}
    (hx : x < R) (hy : y < C) :
    getCell? (gridOfAlive R C f) x y =
      some { alive := f x y, aliveNext := f x y, x := (x : Int), y := (y : Int) } := by
  unfold getCell? gridOfAlive
  simp [List.getElem?_map, List.getElem?_range hx, List.getElem?_range hy]

theorem gridOfAlive_wf (R C : Nat) (f : Nat → Nat → Bool) :
    WF (gridOfAlive R C f) R C := by
  rw [wf_iff]
  refine ⟨by simp [gridOfAlive], fun x hx => ?_, fun x y hx hy => ?_⟩
  · refine ⟨(List.range C).map fun y =>
      { alive := f x y, aliveNext := f x y, x := (x : Int), y := (y : Int) }, ?_, by simp⟩
    unfold gridOfAlive
    simp [List.getElem?_map, List.getElem?_range hx]
  · exact ⟨_, getCell?_gridOfAlive f hx hy, rfl, rfl⟩

theorem aliveAt_gridOfAlive {R C : Nat} (f : Nat → Nat → Bool) {x y : Nat}
    (hx : x < R) (hy : y < C) : aliveAt (gridOfAlive R C f) x y = f x y := by
  rw [aliveAt_eq (getCell?_gridOfAlive f hx hy)]

theorem nextAt_gridOfAlive {R C : Nat} (f : Nat → Nat → Bool) {x y : Nat}
    (hx : x < R) (hy : y < C) : nextAt (gridOfAlive R C f) x y = f x y := by
  rw [nextAt_eq (getCell?_gridOfAlive f hx hy)]

/-- `makeCells` is the patterned initial grid whose pattern is the seeded
random draw at the cell's creation index. -/
theorem makeCells_eq (stream : Int → Nat → Bool) (seed : Int) :
    makeCells stream seed =
      gridOfAlive rows columns fun x y => stream seed (x * columns + y) := rfl

/-- The spec's `computeNextStates` pointwise: every `aliveNext` is the rule
applied to the snapshot. -/
theorem nextAt_computeNextStatesSpec {g : Grid} {R C : Nat} (h : WF g R C)
    {x y : Nat} (hx : x < R) (hy : y < C) :
    nextAt (computeNextStatesSpec g) x y =
      lifeRule (aliveAt g x y) (specCount g (x : Int) (y : Int)) := by
  obtain ⟨c, hc, hcx, hcy⟩ := h.cell hx hy
  unfold getCell? at hc
  cases hrow : g[x]? with
  | none => rw [hrow] at hc; simp at hc
  | some row =>
    rw [hrow] at hc
    simp only [Option.bind_eq_bind, Option.some_bind] at hc
    have h2 : getCell? (computeNextStatesSpec g) x y =
        some { c with aliveNext := lifeRule c.alive (specCount g c.x c.y) } := by
      unfold getCell? computeNextStatesSpec
      simp [List.getElem?_map, hrow, hc]
    rw [nextAt_eq h2]
    rw [show ({ c with aliveNext := lifeRule c.alive (specCount g c.x c.y) } : Cell).aliveNext
      = lifeRule c.alive (specCount g c.x c.y) from rfl]
    rw [hcx, hcy, aliveAt_eq (show getCell? g x y = some c by
      unfold getCell?; rw [hrow]; simpa using hc)]

/-! ### The wraparound case analysis -/

theorem wrap_self {x : Int} {R : Nat} (h0 : 0 ≤ x) (hR : x < R) : wrap x R = x := by
  unfold wrap
  split_ifs <;> omega

theorem wrap_pred {x : Int} {R : Nat} (hx : x < R) :
    wrap (x - 1) R = if x = 0 then (R : Int) - 1 else x - 1 := by
  unfold wrap
  split_ifs <;> omega

theorem wrap_succ {x : Int} {R : Nat} (h0 : 0 ≤ x) :
    wrap (x + 1) R = if x = (R : Int) - 1 then 0 else x + 1 := by
  unfold wrap
  split_ifs <;> omega

/-! ### The claims -/

/-- C1: the per-tick scan is NOT `computeNextStates` followed by `commit`.
Starting from a freshly initialized blinker, processing the scan prefix up
to cell `(1, 2)` of the second tick already flips that cell's `alive`
field — `alive` is mutated before the next-state computation of all cells
has completed — and the second tick's result differs from the spec's
two-phase tick applied to the same pre-tick state. -/
theorem tick_mutates_alive_mid_scan :
    ((tick blink5).bind fun g =>
        runPass g [(0, 0), (0, 1), (0, 2), (0, 3), (0, 4), (1, 0), (1, 1), (1, 2)]).map
      (fun g => aliveAt g 1 2) ≠ ((tick blink5).map fun g => aliveAt g 1 2) ∧
    (tick blink5).bind tick ≠ (tick blink5).map specTick := by
  decide

/-- C2: after the evaluation of one cell, its stored `aliveNext` follows
the rule table exactly: an alive cell (the committed `alive`, i.e. the
value the rule consults) with fewer than 2 live neighbors dies, with 2 or
3 survives, with more than 3 dies; a dead cell is born exactly on 3,
where the count is the value `liveNeighbors` returned for that cell. -/
theorem checkState_rule_cases (g : Grid) (x y : Nat) (c : Cell) (n : Nat)
    (hc : getCell? g x y = some c)
    (hn : liveNeighbors (commitCell c) (setCell g x y (commitCell c)) = some n) :
    ∃ c2, checkStateAt g x y =
        some (setCell (setCell g x y (commitCell c)) x y c2) ∧
      c2.alive = (commitCell c).alive ∧
      ((commitCell c).alive = true →
        ((n < 2 → c2.aliveNext = false) ∧
         ((n = 2 ∨ n = 3) → c2.aliveNext = true) ∧
         (3 < n → c2.aliveNext = false))) ∧
      ((commitCell c).alive = false →
        ((n = 3 → c2.aliveNext = true) ∧ (n ≠ 3 → c2.aliveNext = false))) := by
  have hlf : (applyRules (commitCell c) n).aliveNext = lifeRule (commitCell c).alive n :=
    applyRules_aliveNext (commitCell c) n rfl
  refine ⟨applyRules (commitCell c) n, ?_, applyRules_alive _ _, ?_, ?_⟩
  · unfold checkStateAt
    rw [hc]
    simp only [Option.bind_eq_bind, Option.some_bind, hn]
    rfl
  · intro ha
    rw [hlf, ha]
    refine ⟨fun h2 => ?_, fun h2 => ?_, fun h2 => ?_⟩ <;> simp [lifeRule] <;> omega
  · intro ha
    rw [hlf, ha]
    refine ⟨fun h2 => ?_, fun h2 => ?_⟩ <;> simp [lifeRule] <;> omega

theorem checkState_rule_cases_witness :
    ∃ c2, checkStateAt blink5 2 2 =
        some (setCell (setCell blink5 2 2 (commitCell cell22)) 2 2 c2) ∧
      c2.alive = (commitCell cell22).alive ∧
      ((commitCell cell22).alive = true →
        ((2 < 2 → c2.aliveNext = false) ∧
         ((2 = 2 ∨ 2 = 3) → c2.aliveNext = true) ∧
         (3 < 2 → c2.aliveNext = false))) ∧
      ((commitCell cell22).alive = false →
        ((2 = 3 → c2.aliveNext = true) ∧ (2 ≠ 3 → c2.aliveNext = false))) :=
  checkState_rule_cases blink5 2 2 cell22 2 (by decide) (by decide)

/-- C3: `liveNeighbors` of an in-range cell reads exactly the 8 toroidal
neighbors — left, right, up, down and the four diagonals, indices wrapped
modulo the dimensions (`-1` to the last row/column, `rows`/`columns` to
`0`) — and returns the spec's toroidal live-neighbor count. -/
theorem liveNeighbors_toroidal (g : Grid) (R C x y : Nat) (c : Cell)
    (hwf : WF g R C) (hx : x < R) (hy : y < C) (hc : getCell? g x y = some c) :
    liveNeighbors c g = some (specCount g (x : Int) (y : Int)) := by
  obtain ⟨c2, hc2, hcx, hcy⟩ := hwf.cell hx hy
  rw [hc] at hc2
  obtain rfl : c2 = c := by injection hc2 with h4; exact h4.symm
  exact liveNeighbors_eq hwf hx hy hcx hcy

/-- C3 at the corner: the live cell at `(R-1, C-1) = (3, 3)` is counted as
a diagonal neighbor of `(0, 0)`. -/
theorem liveNeighbors_toroidal_witness :
    liveNeighbors { alive := false, aliveNext := false, x := 0, y := 0 } corner4 =
      some (specCount corner4 (0 : Int) (0 : Int)) ∧
    specCount corner4 (0 : Int) (0 : Int) = 1 :=
  ⟨liveNeighbors_toroidal corner4 4 4 0 0
      { alive := false, aliveNext := false, x := 0, y := 0 }
      (by decide) (by decide) (by decide) (by decide),
    by decide⟩

/-- C4: the neighbor count is always in `[0, 8]`, and on a grid with both
dimensions at least 3 (the program's grid is 100×100) the 8 wrapped
neighbor positions of every cell are pairwise distinct — corner and edge
cells included, no cell has fewer than 8 neighbors. -/
theorem liveNeighbors_bounds_and_eight :
    (∀ (g : Grid) (c : Cell) (n : Nat), liveNeighbors c g = some n → n ≤ 8) ∧
    (∀ (R C : Nat) (x y : Int), 3 ≤ R → 3 ≤ C → 0 ≤ x → x < R → 0 ≤ y → y < C →
      (neighborPositions R C x y).length = 8 ∧ (neighborPositions R C x y).Nodup) := by
  constructor
  · intro g c n h
    simp only [liveNeighbors, Option.bind_eq_bind, Option.bind_eq_some, Option.pure_def,
      Option.some.injEq] at h
    obtain ⟨b1, _, b2, _, b3, _, b4, _, b5, _, b6, _, b7, _, b8, _, rfl⟩ := h
    have t1 : b1.toNat ≤ 1 := Bool.toNat_le b1
    have t2 : b2.toNat ≤ 1 := Bool.toNat_le b2
    have t3 : b3.toNat ≤ 1 := Bool.toNat_le b3
    have t4 : b4.toNat ≤ 1 := Bool.toNat_le b4
    have t5 : b5.toNat ≤ 1 := Bool.toNat_le b5
    have t6 : b6.toNat ≤ 1 := Bool.toNat_le b6
    have t7 : b7.toNat ≤ 1 := Bool.toNat_le b7
    have t8 : b8.toNat ≤ 1 := Bool.toNat_le b8
    omega
  · intro R C x y hR hC hx0 hxR hy0 hyC
    refine ⟨rfl, ?_⟩
    have wx := wrap_self hx0 hxR
    have wy := wrap_self hy0 hyC
    have wxp := wrap_pred (x := x) (R := R) hxR
    have wyp := wrap_pred (x := y) (R := C) hyC
    have wxs := wrap_succ (x := x) (R := R) hx0
    have wys := wrap_succ (x := y) (R := C) hy0
    simp only [neighborPositions, neighborOffsets, List.map_cons, List.map_nil]
    simp only [← Int.sub_eq_add_neg, add_zero]
    rw [wx, wy, wxp, wyp, wxs, wys]
    have hR1 : (3 : Int) ≤ (R : Int) := by exact_mod_cast hR
    have hC1 : (3 : Int) ≤ (C : Int) := by exact_mod_cast hC
    split_ifs <;>
      simp only [List.nodup_cons, List.mem_cons, List.not_mem_nil, List.nodup_nil,
        Prod.mk.injEq, not_or, or_false, and_true, not_false_eq_true] <;>
      omega

/-- C5: on a well-formed grid every in-range cell can be processed without
any index leaving the grid: the committed cell's neighbor probes all
succeed and `checkState` completes (no bounds-check panic). -/
theorem scan_never_out_of_bounds (g : Grid) (R C x y : Nat)
    (hwf : WF g R C) (hx : x < R) (hy : y < C) :
    (∃ c, getCell? g x y = some c ∧
      (liveNeighbors (commitCell c) (setCell g x y (commitCell c))).isSome) ∧
    (checkStateAt g x y).isSome := by
  obtain ⟨c, hc, hcx, hcy⟩ := hwf.cell hx hy
  have h1x : (commitCell c).x = (x : Int) := by rw [commitCell_eq]; exact hcx
  have h1y : (commitCell c).y = (y : Int) := by rw [commitCell_eq]; exact hcy
  have hwf1 : WF (setCell g x y (commitCell c)) R C := hwf.setCell h1x h1y
  have hn := liveNeighbors_eq hwf1 hx hy h1x h1y
  refine ⟨⟨c, hc, by rw [hn]; rfl⟩, ?_⟩
  unfold checkStateAt
  rw [hc]
  simp only [Option.bind_eq_bind, Option.some_bind, hn]
  rfl

theorem scan_never_out_of_bounds_witness :
    (∃ c, getCell? blink5 2 2 = some c ∧
      (liveNeighbors (commitCell c) (setCell blink5 2 2 (commitCell c))).isSome) ∧
    (checkStateAt blink5 2 2).isSome :=
  scan_never_out_of_bounds blink5 5 5 2 2 (by decide) (by decide) (by decide)

/-- C6: the outcome of a tick depends on the order the cells are scanned:
on the state reached one tick after a fresh blinker, the row-major order
and its reverse produce different grids. -/
theorem scan_order_matters :
    (tick blink5).bind (fun g => runPass g (rowMajor 5 5)) ≠
      (tick blink5).bind fun g => runPass g (rowMajor 5 5).reverse := by
  decide

/-- C7: the blinker does not oscillate with period 2 under the code's
tick: two ticks after a fresh 5×5 blinker the grid differs from the
initial one (cell `(1, 3)` has `aliveNext = true`, which no Life successor
of the blinker has), and seven ticks in the board is completely dead. -/
theorem blinker_dies :
    tickN 2 blink5 ≠ some blink5 ∧
    (tickN 2 blink5).map (fun g => nextAt g 1 3) = some true ∧
    ∃ g, tickN 7 blink5 = some g ∧
      ∀ row ∈ g, ∀ c ∈ row, c.alive = false ∧ c.aliveNext = false := by
  decide

/-! ### The block pattern is a fixed point on every board of at least 4×4 -/

theorem toNat_and (a b : Bool) : (a && b).toNat = a.toNat * b.toNat := by
  cases a <;> cases b <;> rfl

theorem hitB_toNat (i r : Nat) : (hitB i r).toNat = if r = i ∨ r = i + 1 then 1 else 0 := by
  unfold hitB
  by_cases h1 : r = i <;> by_cases h2 : r = i + 1 <;> simp [h1, h2]

theorem self_mod_toNat {x R : Nat} (hx : x < R) :
    ((x : Int) % (R : Int)).toNat = x := by
  rw [Int.emod_eq_of_lt (by omega) (by exact_mod_cast hx)]
  exact Int.toNat_natCast x

theorem pred_mod_toNat {x R : Nat} (hx : x < R) :
    (((x : Int) - 1) % (R : Int)).toNat = if x = 0 then R - 1 else x - 1 := by
  have hR : 1 ≤ R := by omega
  have h1 := (wrap_spec ((x : Int) - 1) R hR (by omega) (by omega)).2.2
  have h2 : wrap ((x : Int) - 1) R =
      if (x : Int) = 0 then (R : Int) - 1 else (x : Int) - 1 :=
    wrap_pred (by exact_mod_cast hx)
  rw [← h1, h2]
  split_ifs <;> omega

theorem succ_mod_toNat {x R : Nat} (hx : x < R) :
    (((x : Int) + 1) % (R : Int)).toNat = if x = R - 1 then 0 else x + 1 := by
  have hR : 1 ≤ R := by omega
  have h1 := (wrap_spec ((x : Int) + 1) R hR (by omega) (by omega)).2.2
  have h2 : wrap ((x : Int) + 1) R =
      if (x : Int) = (R : Int) - 1 then 0 else (x : Int) + 1 :=
    wrap_succ (by omega)
  rw [← h1, h2]
  split_ifs <;> omega

theorem wf_blockGrid (R C i j : Nat) : WF (blockGrid R C i j) R C :=
  gridOfAlive_wf R C _

theorem aliveAt_blockGrid {R C i j x y : Nat} (hx : x < R) (hy : y < C) :
    aliveAt (blockGrid R C i j) x y = (hitB i x && hitB j y) := by
  unfold blockGrid
  exact aliveAt_gridOfAlive _ hx hy

theorem nextAt_blockGrid {R C i j x y : Nat} (hx : x < R) (hy : y < C) :
    nextAt (blockGrid R C i j) x y = (hitB i x && hitB j y) := by
  unfold blockGrid
  exact nextAt_gridOfAlive _ hx hy

theorem aliveAtMod_blockGrid (R C i j : Nat) (hR : 1 ≤ R) (hC : 1 ≤ C) (a b : Int) :
    aliveAtMod (blockGrid R C i j) a b =
      (hitB i (a % (R : Int)).toNat && hitB j (b % (C : Int)).toNat) := by
  rw [aliveAtMod_eq (wf_blockGrid R C i j) hR hC]
  have ha : (a % (R : Int)).toNat < R := by
    have h1 := Int.emod_lt_of_pos a (show (0 : Int) < (R : Int) by exact_mod_cast hR)
    have h2 := Int.emod_nonneg a (show (R : Int) ≠ 0 by omega)
    omega
  have hb : (b % (C : Int)).toNat < C := by
    have h1 := Int.emod_lt_of_pos b (show (0 : Int) < (C : Int) by exact_mod_cast hC)
    have h2 := Int.emod_nonneg b (show (C : Int) ≠ 0 by omega)
    omega
  exact aliveAt_blockGrid ha hb

/-- The toroidal 8-neighbor count of the block pattern factorizes: count
plus the center's own indicator is the product of the number of block
rows and block columns among the respective three toroidal neighbors. -/
theorem specCount_blockGrid (R C i j x y : Nat) (hx : x < R) (hy : y < C) :
    specCount (blockGrid R C i j) (x : Int) (y : Int) + (hitB i x && hitB j y).toNat
      = hits3 R i x * hits3 C j y := by
  have hR : 1 ≤ R := by omega
  have hC : 1 ≤ C := by omega
  simp only [specCount, neighborOffsets, List.map_cons, List.map_nil, List.sum_cons,
    List.sum_nil, aliveAtMod_blockGrid R C i j hR hC]
  simp only [← Int.sub_eq_add_neg, add_zero]
  rw [pred_mod_toNat hx, succ_mod_toNat hx, self_mod_toNat hx,
    pred_mod_toNat hy, succ_mod_toNat hy, self_mod_toNat hy]
  unfold hits3
  simp only [toNat_and]
  ring

theorem hits3_le_two (R i x : Nat) (h3 : 3 ≤ R) (hx : x < R) : hits3 R i x ≤ 2 := by
  unfold hits3
  rw [hitB_toNat, hitB_toNat, hitB_toNat]
  by_cases hx0 : x = 0 <;> by_cases hxR : x = R - 1 <;>
    simp only [hx0, hxR, if_true, if_false, ite_true, ite_false, if_pos, if_neg,
      not_false_eq_true, or_false, false_or, or_true, true_or] <;>
    split_ifs <;> (try simp_all) <;> omega

theorem hits3_block (R i x : Nat) (hR : 4 ≤ R) (hi : i + 2 ≤ R)
    (hx : x = i ∨ x = i + 1) : hits3 R i x = 2 := by
  unfold hits3
  rw [hitB_toNat, hitB_toNat, hitB_toNat]
  by_cases hx0 : x = 0 <;> by_cases hxR : x = R - 1 <;>
    simp only [hx0, hxR, if_true, if_false, ite_true, ite_false, if_pos, if_neg,
      not_false_eq_true, or_false, false_or, or_true, true_or] <;>
    split_ifs <;> (try simp_all) <;> omega

/-- Every cell of the block pattern is a fixed point of the spec's rule:
block cells see exactly 3 live neighbors, and a dead cell's count is a
product of two factors that are each at most 2, hence never 3. -/
theorem lifeRule_blockGrid (R C i j x y : Nat) (hR : 4 ≤ R) (hC : 4 ≤ C)
    (hi : i + 2 ≤ R) (hj : j + 2 ≤ C) (hx : x < R) (hy : y < C) :
    lifeRule (hitB i x && hitB j y) (specCount (blockGrid R C i j) (x : Int) (y : Int))
      = (hitB i x && hitB j y) := by
  have hcount := specCount_blockGrid R C i j x y hx hy
  have hxle := hits3_le_two R i x (by omega) hx
  have hyle := hits3_le_two C j y (by omega) hy
  by_cases hb : (hitB i x && hitB j y) = true
  · obtain ⟨hbx, hby⟩ : (x = i ∨ x = i + 1) ∧ (y = j ∨ y = j + 1) := by
      simpa [hitB, Bool.and_eq_true, Bool.or_eq_true, beq_iff_eq] using hb
    have h3 : specCount (blockGrid R C i j) (x : Int) (y : Int) = 3 := by
      rw [hb] at hcount
      rw [hits3_block R i x hR hi hbx, hits3_block C j y hC hj hby] at hcount
      simpa using hcount
    rw [hb, h3]
    rfl
  · rw [Bool.not_eq_true] at hb
    have hcent : (hitB i x && hitB j y).toNat = 0 := by rw [hb]; rfl
    have hcount2 : specCount (blockGrid R C i j) (x : Int) (y : Int)
        = hits3 R i x * hits3 C j y := by omega
    have hne : specCount (blockGrid R C i j) (x : Int) (y : Int) ≠ 3 := by
      rw [hcount2]
      have ha : hits3 R i x = 0 ∨ hits3 R i x = 1 ∨ hits3 R i x = 2 := by omega
      have hb2 : hits3 C j y = 0 ∨ hits3 C j y = 1 ∨ hits3 C j y = 2 := by omega
      rcases ha with h | h | h <;> rcases hb2 with h2 | h2 | h2 <;> rw [h, h2] <;> omega
    rw [hb]
    unfold lifeRule
    simp only [Bool.false_eq_true, if_false]
    simpa using hne

/-- Two well-formed grids of the same dimensions that agree on every
cell's `alive` and `aliveNext` are equal. -/
theorem grid_ext {g g2 : Grid} {R C : Nat} (h : WF g R C) (h2 : WF g2 R C)
    (hpt : ∀ x y : Nat, x < R → y < C →
      aliveAt g x y = aliveAt g2 x y ∧ nextAt g x y = nextAt g2 x y) : g = g2 := by
  apply List.ext_getElem?
  intro n
  by_cases hn : n < R
  · obtain ⟨row, hrow, hlen⟩ := h.row hn
    obtain ⟨row2, hrow2, hlen2⟩ := h2.row hn
    rw [hrow, hrow2]
    congr 1
    apply List.ext_getElem?
    intro k
    by_cases hk : k < C
    · obtain ⟨c, hc, hcx, hcy⟩ := h.cell hn hk
      obtain ⟨c2, hc2, hcx2, hcy2⟩ := h2.cell hn hk
      have hck : row[k]? = some c := by
        unfold getCell? at hc
        rw [hrow] at hc
        simpa using hc
      have hck2 : row2[k]? = some c2 := by
        unfold getCell? at hc2
        rw [hrow2] at hc2
        simpa using hc2
      rw [hck, hck2]
      obtain ⟨ha, hn2⟩ := hpt n k hn hk
      rw [aliveAt_eq hc, aliveAt_eq hc2] at ha
      rw [nextAt_eq hc, nextAt_eq hc2] at hn2
      cases c
      cases c2
      simp_all
    · rw [List.getElem?_eq_none (by omega), List.getElem?_eq_none (by omega)]
  · rw [List.getElem?_eq_none (by rw [h.length]; omega),
      List.getElem?_eq_none (by rw [h2.length]; omega)]

/-- One tick maps the block pattern to itself: the scan's commits are all
no-ops on a fresh pattern, and the spec's rule reproduces the block. -/
theorem tick_blockGrid (R C i j : Nat) (hR : 4 ≤ R) (hC : 4 ≤ C)
    (hi : i + 2 ≤ R) (hj : j + 2 ≤ C) :
    tick (blockGrid R C i j) = some (blockGrid R C i j) := by
  have hwf : WF (blockGrid R C i j) R C := wf_blockGrid R C i j
  have hinit : ∀ x y : Nat, x < R → y < C →
      nextAt (blockGrid R C i j) x y = aliveAt (blockGrid R C i j) x y := by
    intro x y hx hy
    rw [nextAt_blockGrid hx hy, aliveAt_blockGrid hx hy]
  obtain ⟨g2, hg2, hwf2, hpt⟩ := tick_synced hwf hinit
  have hfix : ∀ x y : Nat, x < R → y < C →
      aliveAt g2 x y = aliveAt (blockGrid R C i j) x y ∧
      nextAt g2 x y = nextAt (blockGrid R C i j) x y := by
    intro x y hx hy
    obtain ⟨h1, h2⟩ := hpt x y hx hy
    refine ⟨h1, ?_⟩
    rw [h2, nextAt_blockGrid hx hy, aliveAt_blockGrid hx hy]
    exact lifeRule_blockGrid R C i j x y hR hC hi hj hx hy
  rw [hg2, grid_ext hwf2 hwf hfix]

/-- C8: a 2×2 block of live cells placed anywhere inside any board with
both dimensions at least 4 (the program's board is 100×100), all other
cells dead, is a fixed point of the game loop: the grid is unchanged
after any number of ticks. -/
theorem block_fixed_point (R C i j n : Nat) (hR : 4 ≤ R) (hC : 4 ≤ C)
    (hi : i + 2 ≤ R) (hj : j + 2 ≤ C) :
    tickN n (blockGrid R C i j) = some (blockGrid R C i j) := by
  induction n with
  | zero => rfl
  | succ n ih =>
    show (tick (blockGrid R C i j)).bind (fun g => tickN n g) = some (blockGrid R C i j)
    rw [tick_blockGrid R C i j hR hC hi hj]
    simpa using ih

theorem block_fixed_point_witness :
    tickN 2 (blockGrid 6 6 2 2) = some (blockGrid 6 6 2 2) :=
  block_fixed_point 6 6 2 2 2 (by decide) (by decide) (by decide) (by decide)

/-- C9: grid initialization is deterministic — two runs of `makeCells`
with the same draw function (same generator and threshold) and the same
seed produce identical grids, every cell's `alive` included. -/
theorem makeCells_deterministic (stream : Int → Nat → Bool) (s1 s2 : Int)
    (h : s1 = s2) : makeCells stream s1 = makeCells stream s2 := by
  rw [h]

theorem makeCells_deterministic_witness :
    makeCells exampleStream 42 = makeCells exampleStream 42 :=
  makeCells_deterministic exampleStream 42 42 rfl

/-- C10: because `makeCells` initializes `aliveNext = alive`, the first
tick's in-pass commits are all no-ops: the displayed `alive` values are
unchanged and every cell's `aliveNext` is the spec's rule applied to the
one pre-tick snapshot — generation 1 is the true simultaneous-update
successor, exactly what the spec's `computeNextStates` produces. -/
theorem first_tick_simultaneous (stream : Int → Nat → Bool) (seed : Int) :
    ∃ g1, tick (makeCells stream seed) = some g1 ∧
      ∀ x y : Nat, x < rows → y < columns →
        aliveAt g1 x y = aliveAt (makeCells stream seed) x y ∧
        nextAt g1 x y = lifeRule (aliveAt (makeCells stream seed) x y)
          (specCount (makeCells stream seed) (x : Int) (y : Int)) ∧
        nextAt g1 x y = nextAt (computeNextStatesSpec (makeCells stream seed)) x y := by
  have hwf : WF (makeCells stream seed) rows columns := by
    rw [makeCells_eq]
    exact gridOfAlive_wf rows columns _
  have hinit : ∀ x y : Nat, x < rows → y < columns →
      nextAt (makeCells stream seed) x y = aliveAt (makeCells stream seed) x y := by
    intro x y hx hy
    rw [makeCells_eq, nextAt_gridOfAlive _ hx hy, aliveAt_gridOfAlive _ hx hy]
  obtain ⟨g1, hg1, hwf1, hpt⟩ := tick_synced hwf hinit
  refine ⟨g1, hg1, fun x y hx hy => ?_⟩
  obtain ⟨h1, h2⟩ := hpt x y hx hy
  exact ⟨h1, h2, by rw [h2, nextAt_computeNextStatesSpec hwf hx hy]⟩

end GameOfLife
